import Mathlib

/-!
# Memory-mapped files (`vm/file.c`)

A shallow embedding of the file-backed page operations of `vm/file.c`
(`file_backed_initializer`, `file_backed_swap_in`, `file_backed_swap_out`,
`file_backed_destroy`, `do_mmap`, `do_munmap`) and theorems about them.

Conventions of the embedding.

* Addresses, file handles, thread identifiers and byte values are natural
  numbers; the null pointer is `NULL = 0`.
* File offsets have the type `off_t`, a signed 32-bit integer: they are
  integers, and the result of `offset += page_read_bytes` is brought back into
  the range of `off_t` (`to_off_t`).
* `size_t` is 64 bits wide: the subtraction `zero_bytes -= page_zero_bytes` is
  reduced modulo `2 ^ 64` (`size_sub`); `read_bytes -= page_read_bytes`
  subtracts a minimum of `read_bytes` and cannot wrap.
* `struct page` carries a union (`uninit` / `anon` / `file`) selected by
  `page->operations`; it is embedded as the tagged sum `page_state`, and
  `page->operations->type` is the tag of the sum.
* `while` loops are embedded with a fuel argument; running out of fuel yields
  `none`, which no theorem below accepts as a result.
* Collaborators whose code is not part of `vm/file.c` (supplemental page table,
  translation table, file I/O, `vm_alloc_page_with_initializer`, `malloc`) are
  modelled from the specification; each such definition says so.
-/

namespace VmFile

/-! ## Constants -/

/-- Number of offset bits (`PGBITS`). -/
def PGBITS : Nat := 12

/-- Bytes in a page (`PGSIZE`, i.e. `1 << PGBITS`). -/
def PGSIZE : Nat := 1 <<< PGBITS

/-- Number of values of a `size_t` (64-bit). -/
def SIZE_MOD : Nat := 2 ^ 64

/-- The null pointer. -/
def NULL : Nat := 0

/-- Conversion of an integer to `off_t` (signed, 32 bits): the value is reduced
modulo `2 ^ 32` into `[-2 ^ 31, 2 ^ 31)`. -/
def to_off_t (x : Int) : Int := (x + 2147483648) % 4294967296 - 2147483648

/-- Subtraction of two `size_t` values, wrapping modulo `2 ^ 64`. -/
def size_sub (a b : Nat) : Nat := (a + SIZE_MOD - b % SIZE_MOD) % SIZE_MOD

/-! ## Data model -/

/-- The backing kind of a page (`enum vm_type`). -/
inductive vm_type where
  | VM_UNINIT
  | VM_ANON
  | VM_FILE
  | VM_PAGE_CACHE
deriving DecidableEq

/-- The deferred load argument (`struct load_arg`). -/
structure load_arg where
  file : Nat
  offset : Int
  read_bytes : Nat
  zero_bytes : Nat
deriving DecidableEq

/-- The file-backed page state (`struct file_page`). -/
structure file_page where
  file : Nat
  offset : Int
  read_bytes : Nat
  zero_bytes : Nat
deriving DecidableEq

/-- The union inside `struct page` together with `page->operations`, which
selects the live member: `uninit` carries `page->uninit.aux`, `file` carries
`page->file`. -/
inductive page_state where
  | uninit (aux : load_arg)
  | anon
  | file (fp : file_page)
deriving DecidableEq

/-- A page descriptor (`struct page`). `frame` is `page->frame` (`none` for
`NULL`), holding the bytes at `page->frame->kva`; `box_list` lists the threads
registered in the page's mapping set registry. -/
structure page where
  va : Nat
  type : vm_type
  writable : Bool
  st : page_state
  frame : Option (List Nat)
  box_list : List Nat
deriving DecidableEq

/-- The value of `page->operations->type`. -/
def ops_type (p : page) : vm_type :=
  match p.st with
  | .uninit _ => .VM_UNINIT
  | .anon => .VM_ANON
  | .file _ => .VM_FILE

/-- One translation-table entry of an address space. -/
structure pte where
  present : Bool
  dirty : Bool
deriving DecidableEq

/-- One call of `file_write_at (file, buffer, size, file_ofs)`. -/
structure file_write where
  file : Nat
  buffer : Nat
  size : Nat
  file_ofs : Int
deriving DecidableEq

/-- The state the eviction and teardown paths act on: the translation table
`th->pml4` of every thread, the calls of `file_write_at` made so far, and the
number of bytes the file system persists for a given write request. -/
structure world where
  pml4 : Nat → Nat → pte
  writes : List file_write
  persisted : file_write → Nat

/-- What `do_mmap` consumes from its collaborators: the file contents behind
each handle, the outcome of `file_reopen`, and whether the `k`-th `malloc` and
the `k`-th descriptor registration of the call find the resources they need. -/
structure mmap_env where
  data : Nat → List Nat
  reopen : Nat → Option Nat
  malloc_ok : Nat → Bool
  alloc_ok : Nat → Bool

/-! ## Collaborators -/

/-- Modelled from the spec: `file_reopen` (file system, not in `vm/file.c`),
`reopen(file) → handle|failure`. -/
def file_reopen (env : mmap_env) (file : Nat) : Option Nat := env.reopen file

/-- Modelled from the spec: `file_length` (file system, not in `vm/file.c`),
`length(handle) → bytes`. -/
def file_length (env : mmap_env) (file : Nat) : Nat := (env.data file).length

/-- Modelled from the spec: `file_read_at` (file system, not in `vm/file.c`),
`readAt(handle, buffer, count, offset)`: copies the bytes of the file that lie
in `[file_ofs, file_ofs + size)` to the start of the buffer and returns their
number; a read that reaches the end of the file copies only the bytes that
exist and leaves the rest of the buffer as it was. No byte of a file lies at a
negative offset, so a read at a negative `file_ofs` copies nothing. -/
def file_read_at (data : Nat → List Nat) (file : Nat) (buffer : List Nat)
    (size : Nat) (file_ofs : Int) : List Nat × Nat :=
  let bytes := if file_ofs < 0 then []
               else ((data file).drop file_ofs.toNat).take size
  (bytes ++ buffer.drop bytes.length, bytes.length)

/-- Modelled from the spec: `file_write_at` (file system, not in `vm/file.c`),
`writeAt(handle, buffer, count, offset)`: the call is recorded and the number
of bytes actually persisted is returned. -/
def file_write_at (w : world) (file buffer size : Nat) (file_ofs : Int) :
    Nat × world :=
  let req : file_write := ⟨file, buffer, size, file_ofs⟩
  (w.persisted req, { w with writes := w.writes ++ [req] })

/-- The C library `memset (dst + start, c, n)` on a buffer. -/
def memset (buffer : List Nat) (start c n : Nat) : List Nat :=
  buffer.take start ++ List.replicate n c ++ buffer.drop (start + n)

/-- Modelled from the spec: `pml4_is_dirty` (translation table, not in
`vm/file.c`), `isDirty(addressSpace, virtualAddress) → bool`. -/
def pml4_is_dirty (pml4 : Nat → pte) (va : Nat) : Bool := (pml4 va).dirty

/-- Modelled from the spec: `pml4_set_dirty` (translation table, not in
`vm/file.c`), `setDirty(addressSpace, virtualAddress, bool)`. -/
def pml4_set_dirty (pml4 : Nat → pte) (va : Nat) (dirty : Bool) : Nat → pte :=
  fun a => if a = va then { pml4 a with dirty := dirty } else pml4 a

/-- Modelled from the spec: `pml4_clear_page` (translation table, not in
`vm/file.c`), `unmap(addressSpace, virtualAddress)`: the translation is marked
not present. -/
def pml4_clear_page (pml4 : Nat → pte) (va : Nat) : Nat → pte :=
  fun a => if a = va then { pml4 a with present := false } else pml4 a

/-- Replace the translation table of thread `th`. -/
def set_pml4 (w : world) (th : Nat) (t : Nat → pte) : world :=
  { w with pml4 := fun x => if x = th then t else w.pml4 x }

/-- Modelled from the spec: `spt_find_page` (supplemental page table, not in
`vm/file.c`), `find(address) → descriptor|none`. The table is the list of its
descriptors, keyed by `va`. -/
def spt_find_page (spt : List page) (va : Nat) : Option page :=
  spt.find? (fun p => decide (p.va = va))

/-- Modelled from the spec: `vm_alloc_page_with_initializer` (`vm/vm.c`, not in
`vm/file.c`): registers a lazily-initialized descriptor of the given type at
`upage`, carrying `aux`; it fails on resource exhaustion (`res_ok = false`) or
when the address is already mapped, and then leaves the table as it was. -/
def vm_alloc_page_with_initializer (res_ok : Bool) (spt : List page)
    (type : vm_type) (upage : Nat) (writable : Bool) (aux : load_arg) :
    Option (List page) :=
  if res_ok then
    match spt_find_page spt upage with
    | some _ => none
    | none =>
      some (spt ++ [{ va := upage, type := type, writable := writable,
                      st := .uninit aux, frame := none, box_list := [] }])
  else none

/-! ## The functions of `vm/file.c` -/

/-- `file_backed_initializer (page, type, kva)`: installs the file-backed
operations and copies the load argument into `page->file`. It needs an
uninitialized page (`none` otherwise). The C function has no `return`
statement, so no result value is modelled. -/
def file_backed_initializer (p : page) (_type : vm_type) (_kva : Nat) :
    Option page :=
  match p.st with
  | .uninit aux =>
    some { p with st := .file { file := aux.file, offset := aux.offset,
                                read_bytes := aux.read_bytes,
                                zero_bytes := aux.zero_bytes } }
  | _ => none

/-- `file_backed_swap_in (page, kva)`: reads `read_bytes` bytes of the file at
`offset` into the frame, zeroes the `zero_bytes` bytes after them and returns
`true`. The value returned by `file_read_at` is not inspected. It needs a
file-backed page with a frame (`none` otherwise). -/
def file_backed_swap_in (data : Nat → List Nat) (p : page) (_kva : Nat) :
    Option (Bool × page) :=
  match p.st, p.frame with
  | .file fp, some paddr =>
    let paddr1 := (file_read_at data fp.file paddr fp.read_bytes fp.offset).1
    let paddr2 := memset paddr1 fp.read_bytes 0 fp.zero_bytes
    some (true, { p with frame := some paddr2 })
  | _, _ => none

/-- The first `for` loop of `file_backed_swap_out`: `flg` becomes `true` when
a registered thread marks the page dirty. -/
def swap_out_scan (w : world) (va : Nat) (box_list : List Nat) : Bool :=
  box_list.foldl
    (fun flg th => if pml4_is_dirty (w.pml4 th) va then true else flg) false

/-- The second `for` loop of `file_backed_swap_out`: for every registered
thread, clear the dirty flag if `flg` is set, then clear the translation. -/
def swap_out_unmap (flg : Bool) (va : Nat) (w : world) (box_list : List Nat) :
    world :=
  box_list.foldl
    (fun w th =>
      let w1 := if flg then set_pml4 w th (pml4_set_dirty (w.pml4 th) va false)
                else w
      set_pml4 w1 th (pml4_clear_page (w1.pml4 th) va)) w

/-- `file_backed_swap_out (page)`: scans the registry for a dirty translation,
writes back if there is one, then for every registered thread clears the dirty
flag (if a write was made) and the translation, drops the frame reference and
returns `true`. The value returned by `file_write_at` is not inspected. It
needs a file-backed page (`none` otherwise). -/
def file_backed_swap_out (w : world) (p : page) : Option (Bool × world × page) :=
  match p.st with
  | .file fp =>
    let flg := swap_out_scan w p.va p.box_list
    let w1 := if flg then (file_write_at w fp.file p.va fp.read_bytes fp.offset).2
              else w
    let w2 := swap_out_unmap flg p.va w1 p.box_list
    some (true, w2, { p with frame := none })
  | _ => none

/-- `file_backed_destroy (page)` run by thread `t = thread_current ()`: writes
back if `t` marks the page dirty, then frees the frame. -/
def file_backed_destroy (w : world) (t : Nat) (p : page) : Option (world × page) :=
  match p.st with
  | .file fp =>
    let w1 := if pml4_is_dirty (w.pml4 t) p.va
              then (file_write_at w fp.file p.va fp.read_bytes fp.offset).2
              else w
    some (w1, { p with frame := none })
  | _ => none

/-- Modelled from the spec: `spt_remove_page` (supplemental page table, not in
`vm/file.c`), `remove(descriptor)` (removal triggers destroy): the descriptor
leaves the table and, if it is file-backed, `file_backed_destroy` runs on it. -/
def spt_remove_page (w : world) (t : Nat) (spt : List page) (p : page) :
    world × List page :=
  let w1 := match file_backed_destroy w t p with
            | some r => r.1
            | none => w
  (w1, spt.filter (fun q => decide (q.va ≠ p.va)))

/-- The `while` loop of `do_mmap`. `k` counts the iterations already made; the
result is the returned pointer and the descriptor table.
`read_bytes -= page_read_bytes` cannot wrap, since `page_read_bytes` is the
minimum of `read_bytes` and `PGSIZE`. `offset` is an `off_t`:
`offset += page_read_bytes` stores the sum converted back to `off_t`. -/
def do_mmap_loop (env : mmap_env) (original : Nat) (writable : Bool)
    (reopened_file : Nat) :
    Nat → Nat → Nat → Nat → Nat → Int → List page → Option (Nat × List page)
  | 0, _, _, _, _, _, _ => none
  | fuel + 1, k, read_bytes, zero_bytes, addr, offset, spt =>
    if read_bytes > 0 ∨ zero_bytes > 0 then
      let page_read_bytes := if read_bytes < PGSIZE then read_bytes else PGSIZE
      let page_zero_bytes := PGSIZE - page_read_bytes
      if env.malloc_ok k then
        let aux : load_arg := { file := reopened_file, offset := offset,
                                read_bytes := page_read_bytes,
                                zero_bytes := page_zero_bytes }
        match vm_alloc_page_with_initializer (env.alloc_ok k) spt .VM_FILE addr
                writable aux with
        | none => some (NULL, spt)
        | some spt1 =>
          do_mmap_loop env original writable reopened_file fuel (k + 1)
            (read_bytes - page_read_bytes) (size_sub zero_bytes page_zero_bytes)
            (addr + PGSIZE) (to_off_t (offset + (page_read_bytes : Int))) spt1
      else some (NULL, spt)
    else some (original, spt)

/-- `do_mmap (addr, length, writable, file, offset)` on the descriptor table
`spt` of the calling thread. -/
def do_mmap (fuel : Nat) (env : mmap_env) (spt : List page) (addr length : Nat)
    (writable : Bool) (file : Nat) (offset : Int) : Option (Nat × List page) :=
  match file_reopen env file with
  | none => some (NULL, spt)
  | some reopened_file =>
    let original := addr
    let file_len := file_length env reopened_file
    let read_bytes := if length > file_len then file_len else length
    let zero_bytes := PGSIZE - (read_bytes % PGSIZE)
    do_mmap_loop env original writable reopened_file fuel 0 read_bytes zero_bytes
      addr offset spt

/-- The `while` loop of `do_munmap`, run by thread `curr`. -/
def do_munmap_loop (curr : Nat) :
    Nat → world → List page → Nat → Bool → Option (world × List page)
  | 0, _, _, _, _ => none
  | fuel + 1, w, spt, looking_addr, flg =>
    if flg then some (w, spt)
    else
      match spt_find_page spt looking_addr with
      | none => some (w, spt)
      | some p =>
        if p.type ≠ .VM_FILE then some (w, spt)
        else
          let flg1 := match p.st with
                      | .uninit aux => if aux.zero_bytes ≠ 0 then true else flg
                      | _ => flg
          let flg2 := match p.st with
                      | .file fp => if fp.zero_bytes ≠ 0 then true else flg1
                      | _ => flg1
          let r := spt_remove_page w curr spt p
          do_munmap_loop curr fuel r.1 r.2 (looking_addr + PGSIZE) flg2

/-- `do_munmap (addr)` run by thread `curr` on its descriptor table `spt`. -/
def do_munmap (fuel : Nat) (curr : Nat) (w : world) (spt : List page)
    (addr : Nat) : Option (world × List page) :=
  do_munmap_loop curr fuel w spt addr false

/-! ## Derived notions used in the statements -/

/-- The file offset the loop of `do_mmap` holds after `i` full pages:
`offset += PGSIZE`, in `off_t`, `i` times. -/
def seg_offset (offset : Int) : Nat → Int
  | 0 => offset
  | i + 1 => to_off_t (seg_offset offset i + (PGSIZE : Int))

/-- The load argument of the `i`-th segment of a mapping of `total` real bytes
at file offset `offset` of the handle `file`. -/
def seg_aux (file : Nat) (offset : Int) (total i : Nat) : load_arg :=
  { file := file, offset := seg_offset offset i,
    read_bytes := if total - i * PGSIZE < PGSIZE then total - i * PGSIZE else PGSIZE,
    zero_bytes := PGSIZE -
      (if total - i * PGSIZE < PGSIZE then total - i * PGSIZE else PGSIZE) }

/-- The descriptor registered for the `i`-th segment. -/
def seg_page (addr : Nat) (writable : Bool) (file : Nat) (offset : Int) (total i : Nat) : page :=
  { va := addr + i * PGSIZE, type := .VM_FILE, writable := writable,
    st := .uninit (seg_aux file offset total i), frame := none, box_list := [] }

/-- The descriptors of the first `m` segments, in order. -/
def seg_pages (addr : Nat) (writable : Bool) (file : Nat) (offset : Int) (total m : Nat) :
    List page :=
  (List.range m).map (seg_page addr writable file offset total)

/-- Registration of segment `i` succeeds: its load argument is allocated, the
registration finds its resources, and the address is not yet in the table. -/
def reg_ok (env : mmap_env) (spt : List page) (addr i : Nat) : Bool :=
  env.malloc_ok i && env.alloc_ok i && (spt_find_page spt (addr + i * PGSIZE)).isNone

/-- The `read_bytes` field of a descriptor, whichever member is live. -/
def page_read_bytes (p : page) : Nat :=
  match p.st with
  | .uninit aux => aux.read_bytes
  | .file fp => fp.read_bytes
  | .anon => 0

/-- The `zero_bytes` field of a descriptor, whichever member is live. -/
def page_zero_bytes (p : page) : Nat :=
  match p.st with
  | .uninit aux => aux.zero_bytes
  | .file fp => fp.zero_bytes
  | .anon => 0

/-- The file offset of a descriptor, whichever member is live. -/
def page_offset (p : page) : Int :=
  match p.st with
  | .uninit aux => aux.offset
  | .file fp => fp.offset
  | .anon => 0

/-- The addresses of the first `m` pages from `addr`. -/
def mmap_addrs (addr m : Nat) : List Nat :=
  (List.range m).map (fun i => addr + i * PGSIZE)

/-! ## Concrete inputs -/

/-- Collaborators that never fail, every file being `n` bytes of value 7;
reopening the handle `f` yields the handle `f + 1`. -/
def env_ok (n : Nat) : mmap_env :=
  { data := fun _ => List.replicate n 7, reopen := fun f => some (f + 1),
    malloc_ok := fun _ => true, alloc_ok := fun _ => true }

/-- As `env_ok`, except that the registration of segment 1 finds no resources. -/
def env_fail_at_1 (n : Nat) : mmap_env :=
  { data := fun _ => List.replicate n 7, reopen := fun f => some (f + 1),
    malloc_ok := fun _ => true, alloc_ok := fun k => decide (k ≠ 1) }

/-- Translation tables in which every page is present, thread 1 marks every
page dirty and no other thread does; every write persists in full. -/
def w_one_dirty : world :=
  { pml4 := fun th _ => { present := true, dirty := decide (th = 1) },
    writes := [], persisted := fun r => r.size }

/-- As `w_one_dirty`, but no write persists any byte. -/
def w_write_fails : world :=
  { pml4 := fun th _ => { present := true, dirty := decide (th = 1) },
    writes := [], persisted := fun _ => 0 }

/-- A resident file-backed page with ten real bytes, mapped by threads 1 and 2. -/
def pg_shared : page :=
  { va := 65536, type := .VM_FILE, writable := true,
    st := .file { file := 4, offset := 0, read_bytes := 10, zero_bytes := 4086 },
    frame := some (List.replicate PGSIZE 0), box_list := [1, 2] }

/-- A frame whose previous user left the byte 170 everywhere. -/
def stale_frame : List Nat := List.replicate PGSIZE 170

/-- First descriptor of the mapping of `PGSIZE` bytes at offset `PGSIZE` of a
file of `PGSIZE + 1` bytes. -/
def pg_tail : page :=
  { va := 65536, type := .VM_FILE, writable := true,
    st := .uninit { file := 4, offset := 4096, read_bytes := 4096, zero_bytes := 0 },
    frame := none, box_list := [] }

/-- Second and last descriptor of that mapping. -/
def pg_tail_end : page :=
  { va := 69632, type := .VM_FILE, writable := true,
    st := .uninit { file := 4, offset := 8192, read_bytes := 0, zero_bytes := 4096 },
    frame := none, box_list := [] }

/-- The descriptor `pg_tail` once it has been given the frame `stale_frame` and
`file_backed_initializer` has run. -/
def pg_tail_file : page :=
  { va := 65536, type := .VM_FILE, writable := true,
    st := .file { file := 4, offset := 4096, read_bytes := 4096, zero_bytes := 0 },
    frame := some stale_frame, box_list := [] }

/-- First descriptor of a two-page mapping at 65536, already file-backed and
resident. -/
def pg_a0 : page :=
  { va := 65536, type := .VM_FILE, writable := true,
    st := .file { file := 4, offset := 0, read_bytes := 4096, zero_bytes := 0 },
    frame := some stale_frame, box_list := [0] }

/-- Second and last descriptor of the mapping at 65536, still uninitialized. -/
def pg_a1 : page :=
  { va := 69632, type := .VM_FILE, writable := true,
    st := .uninit { file := 4, offset := 4096, read_bytes := 904, zero_bytes := 3192 },
    frame := none, box_list := [] }

/-- The only descriptor of a second mapping, placed right after the first. -/
def pg_b0 : page :=
  { va := 73728, type := .VM_FILE, writable := false,
    st := .uninit { file := 6, offset := 0, read_bytes := 100, zero_bytes := 3996 },
    frame := none, box_list := [] }

/-- The table after `mmap` of two pages at 65536, a fault on the first of them,
and `mmap` of one page at 73728. -/
def spt_live : List page := [pg_a0, pg_a1, pg_b0]

/-! ## Basic facts -/

theorem PGSIZE_eq : PGSIZE = 4096 := by decide

theorem SIZE_MOD_eq : SIZE_MOD = 18446744073709551616 := by decide

theorem file_length_env_ok (n h : Nat) : file_length (env_ok n) h = n := by
  simp only [file_length, env_ok, List.length_replicate]

theorem file_length_env_fail_at_1 (n h : Nat) :
    file_length (env_fail_at_1 n) h = n := by
  simp only [file_length, env_fail_at_1, List.length_replicate]

theorem size_sub_zero (a : Nat) (h : a ≤ PGSIZE) : size_sub a 0 = a := by
  rw [PGSIZE_eq] at h
  unfold size_sub
  rw [SIZE_MOD_eq]
  omega

theorem size_sub_self (a : Nat) : size_sub a a = 0 := by
  unfold size_sub
  rw [SIZE_MOD_eq]
  omega

theorem to_off_t_of_range (x : Int) (hlo : -2147483648 ≤ x)
    (hhi : x < 2147483648) : to_off_t x = x := by
  unfold to_off_t
  omega

/-- As long as the offsets stay in the range of `off_t`, the offset after `i`
full pages is `offset + i * PGSIZE`. -/
theorem seg_offset_eq (offset : Int) (i : Nat) (hlo : -2147483648 ≤ offset)
    (hhi : offset + ((i * PGSIZE : Nat) : Int) < 2147483648) :
    seg_offset offset i = offset + ((i * PGSIZE : Nat) : Int) := by
  induction i with
  | zero => simp [seg_offset]
  | succ i ih =>
    rw [PGSIZE_eq] at hhi ih ⊢
    have ih1 := ih (by push_cast at hhi ⊢; omega)
    simp only [seg_offset, ih1, PGSIZE_eq]
    push_cast at hhi ⊢
    rw [to_off_t_of_range _ (by omega) (by omega)]
    ring

theorem seg_pages_length (addr : Nat) (writable : Bool) (file : Nat) (offset : Int) (total m : Nat) :
    (seg_pages addr writable file offset total m).length = m := by
  simp [seg_pages]

theorem seg_pages_succ (addr : Nat) (writable : Bool) (file : Nat) (offset : Int) (total m : Nat) :
    seg_pages addr writable file offset total (m + 1) =
      seg_pages addr writable file offset total m ++
        [seg_page addr writable file offset total m] := by
  simp [seg_pages, List.range_succ]

theorem spt_find_page_append (l1 l2 : List page) (va : Nat) :
    spt_find_page (l1 ++ l2) va =
      (spt_find_page l1 va).or (spt_find_page l2 va) := by
  simp [spt_find_page, List.find?_append]

theorem spt_find_page_seg_pages_none (addr : Nat) (writable : Bool)
    (file : Nat) (offset : Int) (total m i : Nat) (h : m ≤ i) :
    spt_find_page (seg_pages addr writable file offset total m) (addr + i * PGSIZE)
      = none := by
  simp only [spt_find_page, seg_pages, List.find?_eq_none, List.mem_map,
    List.mem_range, decide_eq_true_eq]
  rintro p ⟨j, hj, rfl⟩
  simp only [seg_page, PGSIZE_eq]
  omega

theorem spt_find_page_grow (spt : List page) (addr : Nat) (writable : Bool)
    (file : Nat) (offset : Int) (total m i : Nat) (h : m ≤ i) :
    spt_find_page (spt ++ seg_pages addr writable file offset total m)
        (addr + i * PGSIZE)
      = spt_find_page spt (addr + i * PGSIZE) := by
  rw [spt_find_page_append, spt_find_page_seg_pages_none _ _ _ _ _ _ _ h]
  cases spt_find_page spt (addr + i * PGSIZE) <;> rfl

/-! ## The loop of `do_mmap` -/

/-- One iteration on a full page that is registered. -/
theorem do_mmap_loop_full (env : mmap_env) (original : Nat) (writable : Bool)
    (h fuel k rb zb addr : Nat) (off : Int) (spt : List page)
    (hrb : PGSIZE ≤ rb) (hzb : zb ≤ PGSIZE)
    (hm : env.malloc_ok k = true) (ha : env.alloc_ok k = true)
    (hf : spt_find_page spt addr = none) :
    do_mmap_loop env original writable h (fuel + 1) k rb zb addr off spt =
      do_mmap_loop env original writable h fuel (k + 1) (rb - PGSIZE) zb
        (addr + PGSIZE) (to_off_t (off + (PGSIZE : Int)))
        (spt ++ [{ va := addr, type := .VM_FILE, writable := writable,
                   st := .uninit { file := h, offset := off, read_bytes := PGSIZE,
                                   zero_bytes := 0 },
                   frame := none, box_list := [] }]) := by
  have hpos : 0 < PGSIZE := by rw [PGSIZE_eq]; omega
  have h1 : rb > 0 ∨ zb > 0 := Or.inl (by omega)
  have h2 : ¬ rb < PGSIZE := by omega
  simp only [do_mmap_loop, h1, h2, if_true, if_false, hm, ha,
    vm_alloc_page_with_initializer, hf, Nat.sub_self, size_sub_zero zb hzb]

/-- The last iteration: a page with fewer than `PGSIZE` real bytes is registered
and the loop ends, returning the original address. -/
theorem do_mmap_loop_last (env : mmap_env) (original : Nat) (writable : Bool)
    (h fuel k rb addr : Nat) (off : Int) (spt : List page)
    (hrb : rb < PGSIZE)
    (hm : env.malloc_ok k = true) (ha : env.alloc_ok k = true)
    (hf : spt_find_page spt addr = none) :
    do_mmap_loop env original writable h (fuel + 2) k rb (PGSIZE - rb) addr off spt =
      some (original,
        spt ++ [{ va := addr, type := .VM_FILE, writable := writable,
                  st := .uninit { file := h, offset := off, read_bytes := rb,
                                  zero_bytes := PGSIZE - rb },
                  frame := none, box_list := [] }]) := by
  have h1 : rb > 0 ∨ PGSIZE - rb > 0 := Or.inr (by omega)
  have h3 : ¬ (rb - rb > 0 ∨ size_sub (PGSIZE - rb) (PGSIZE - rb) > 0) := by
    rw [size_sub_self]; omega
  simp only [do_mmap_loop, h1, hrb, if_true, hm, ha,
    vm_alloc_page_with_initializer, hf, h3, if_false]

/-- An iteration whose registration does not succeed returns `NULL` and leaves
the table as it is. -/
theorem do_mmap_loop_fail (env : mmap_env) (original : Nat) (writable : Bool)
    (h fuel k rb zb addr : Nat) (off : Int) (spt : List page)
    (hgo : rb > 0 ∨ zb > 0)
    (hbad : (env.malloc_ok k && env.alloc_ok k && (spt_find_page spt addr).isNone)
              = false) :
    do_mmap_loop env original writable h (fuel + 1) k rb zb addr off spt =
      some (NULL, spt) := by
  simp only [do_mmap_loop, hgo, if_true]
  cases hm : env.malloc_ok k
  · simp
  · cases ha : env.alloc_ok k
    · simp [vm_alloc_page_with_initializer]
    · cases hf : spt_find_page spt addr with
      | none => simp [hm, ha, hf] at hbad
      | some q => simp [vm_alloc_page_with_initializer, hf]

/-- After `m` full pages have been registered the loop continues from the
advanced state, the table having grown by the first `m` segments. -/
theorem do_mmap_loop_full_run (env : mmap_env) (original : Nat) (writable : Bool)
    (h total zb addr : Nat) (off : Int) (spt : List page) (hzb : zb ≤ PGSIZE)
    (m : Nat) (hm : m ≤ total / PGSIZE)
    (hok : ∀ i, i < m → reg_ok env spt addr i = true) (fuel : Nat) :
    do_mmap_loop env original writable h (fuel + m) 0 total zb addr off spt =
      do_mmap_loop env original writable h fuel m (total - m * PGSIZE) zb
        (addr + m * PGSIZE) (seg_offset off m)
        (spt ++ seg_pages addr writable h off total m) := by
  induction m generalizing fuel with
  | zero => simp [seg_pages, seg_offset]
  | succ m ih =>
    have hm1 : m ≤ total / PGSIZE := by omega
    have hok1 : ∀ i, i < m → reg_ok env spt addr i = true :=
      fun i hi => hok i (by omega)
    have hstep := ih hm1 hok1 (fuel + 1)
    have hfuel : fuel + (m + 1) = fuel + 1 + m := by omega
    rw [hfuel, hstep]
    have hreg := hok m (by omega)
    simp only [reg_ok, Bool.and_eq_true, Option.isNone_iff_eq_none] at hreg
    have hfull : PGSIZE ≤ total - m * PGSIZE := by
      have := Nat.div_mul_le_self total PGSIZE
      have h5 : (m + 1) * PGSIZE ≤ total / PGSIZE * PGSIZE :=
        Nat.mul_le_mul_right _ hm
      rw [PGSIZE_eq] at *
      omega
    have hfree : spt_find_page (spt ++ seg_pages addr writable h off total m)
        (addr + m * PGSIZE) = none := by
      rw [spt_find_page_grow _ _ _ _ _ _ _ _ (le_refl m)]
      exact hreg.2
    rw [do_mmap_loop_full env original writable h fuel m _ zb _ _ _ hfull hzb
      hreg.1.1 hreg.1.2 hfree]
    have hseg : seg_page addr writable h off total m =
        { va := addr + m * PGSIZE, type := .VM_FILE, writable := writable,
          st := .uninit { file := h, offset := seg_offset off m,
                          read_bytes := PGSIZE, zero_bytes := 0 },
          frame := none, box_list := [] } := by
      have : ¬ total - m * PGSIZE < PGSIZE := by omega
      simp [seg_page, seg_aux, this]
    rw [seg_pages_succ, hseg, List.append_assoc]
    have e1 : total - m * PGSIZE - PGSIZE = total - (m + 1) * PGSIZE := by
      rw [Nat.add_mul, Nat.one_mul, Nat.sub_sub]
    have e2 : addr + m * PGSIZE + PGSIZE = addr + (m + 1) * PGSIZE := by
      rw [Nat.add_mul, Nat.one_mul, Nat.add_assoc]
    have e3 : to_off_t (seg_offset off m + (PGSIZE : Int)) = seg_offset off (m + 1) :=
      rfl
    rw [e1, e2, e3]

/-! ## Characterisation of `do_mmap` -/

theorem read_bytes_eq_min (length file_len : Nat) :
    (if length > file_len then file_len else length) = min length file_len := by
  split <;> omega

/-- When the reopen fails, `do_mmap` returns `NULL` and the table is unchanged. -/
theorem do_mmap_reopen_none (fuel : Nat) (env : mmap_env) (spt : List page)
    (addr length : Nat) (writable : Bool) (file : Nat) (offset : Int)
    (hre : env.reopen file = none) :
    do_mmap fuel env spt addr length writable file offset = some (NULL, spt) := by
  simp [do_mmap, file_reopen, hre]

/-- When every registration succeeds, `do_mmap` returns the starting address and
the table has grown by the segments `0 .. total / PGSIZE`. -/
theorem do_mmap_all_ok (fuel : Nat) (env : mmap_env) (spt : List page)
    (addr length : Nat) (writable : Bool) (file : Nat) (offset : Int) (h : Nat)
    (hre : env.reopen file = some h)
    (hok : ∀ i, i ≤ min length (file_length env h) / PGSIZE →
      reg_ok env spt addr i = true)
    (hfuel : min length (file_length env h) / PGSIZE + 2 ≤ fuel) :
    do_mmap fuel env spt addr length writable file offset =
      some (addr, spt ++ seg_pages addr writable h offset
        (min length (file_length env h))
        (min length (file_length env h) / PGSIZE + 1)) := by
  simp only [do_mmap, file_reopen, hre, read_bytes_eq_min]
  generalize min length (file_length env h) = total at *
  obtain ⟨g, rfl⟩ : ∃ g, fuel = g + 2 + total / PGSIZE :=
    ⟨fuel - (total / PGSIZE + 2), by omega⟩
  have hzb : PGSIZE - total % PGSIZE ≤ PGSIZE := Nat.sub_le _ _
  rw [do_mmap_loop_full_run env addr writable h total _ addr offset spt hzb
    (total / PGSIZE) (le_refl _) (fun i hi => hok i (by omega)) (g + 2)]
  have hreg := hok (total / PGSIZE) (le_refl _)
  simp only [reg_ok, Bool.and_eq_true, Option.isNone_iff_eq_none] at hreg
  have hrem : total - total / PGSIZE * PGSIZE = total % PGSIZE := by
    have := Nat.div_add_mod total PGSIZE
    rw [Nat.mul_comm] at this
    omega
  have hlt : total % PGSIZE < PGSIZE := Nat.mod_lt _ (by rw [PGSIZE_eq]; omega)
  have hfree : spt_find_page
      (spt ++ seg_pages addr writable h offset total (total / PGSIZE))
      (addr + total / PGSIZE * PGSIZE) = none := by
    rw [spt_find_page_grow _ _ _ _ _ _ _ _ (le_refl _)]
    exact hreg.2
  rw [hrem, do_mmap_loop_last env addr writable h g _ _ _ _ _ hlt hreg.1.1
    hreg.1.2 hfree]
  have hseg : seg_page addr writable h offset total (total / PGSIZE) =
      { va := addr + total / PGSIZE * PGSIZE, type := .VM_FILE,
        writable := writable,
        st := .uninit { file := h, offset := seg_offset offset (total / PGSIZE),
                        read_bytes := total % PGSIZE,
                        zero_bytes := PGSIZE - total % PGSIZE },
        frame := none, box_list := [] } := by
    simp [seg_page, seg_aux, hrem, hlt]
  rw [seg_pages_succ, hseg, List.append_assoc]

/-- When the registration of segment `k` is the first that does not succeed,
`do_mmap` returns `NULL` and the table has grown by the segments before `k`. -/
theorem do_mmap_first_failure (fuel : Nat) (env : mmap_env) (spt : List page)
    (addr length : Nat) (writable : Bool) (file : Nat) (offset : Int) (h k : Nat)
    (hre : env.reopen file = some h)
    (hk : k ≤ min length (file_length env h) / PGSIZE)
    (hok : ∀ i, i < k → reg_ok env spt addr i = true)
    (hbad : reg_ok env spt addr k = false)
    (hfuel : min length (file_length env h) / PGSIZE + 2 ≤ fuel) :
    do_mmap fuel env spt addr length writable file offset =
      some (NULL, spt ++ seg_pages addr writable h offset
        (min length (file_length env h)) k) := by
  simp only [do_mmap, file_reopen, hre, read_bytes_eq_min]
  generalize min length (file_length env h) = total at *
  obtain ⟨g, rfl⟩ : ∃ g, fuel = g + 1 + k := ⟨fuel - (k + 1), by omega⟩
  have hzb : PGSIZE - total % PGSIZE ≤ PGSIZE := Nat.sub_le _ _
  rw [do_mmap_loop_full_run env addr writable h total _ addr offset spt hzb
    k hk hok (g + 1)]
  apply do_mmap_loop_fail
  · right
    have hlt : total % PGSIZE < PGSIZE := Nat.mod_lt _ (by rw [PGSIZE_eq]; omega)
    omega
  · rw [spt_find_page_grow _ _ _ _ _ _ _ _ (le_refl _)]
    exact hbad

/-! ## Facts about the segments -/

theorem seg_pages_getElem? (addr : Nat) (writable : Bool)
    (file : Nat) (offset : Int) (total m i : Nat) (p : page)
    (h : (seg_pages addr writable file offset total m)[i]? = some p) :
    i < m ∧ p = seg_page addr writable file offset total i := by
  simp only [seg_pages, List.getElem?_map, Option.map_eq_some'] at h
  obtain ⟨j, hj, rfl⟩ := h
  have hlt : i < m := by
    have := (List.getElem?_eq_some_iff.mp hj).1
    simpa using this
  rw [List.getElem?_range hlt] at hj
  simp only [Option.some.injEq] at hj
  subst hj
  exact ⟨hlt, rfl⟩

theorem seg_pages_read_sum (addr : Nat) (writable : Bool)
    (file : Nat) (offset : Int) (total m : Nat) (hm : m ≤ total / PGSIZE) :
    ((seg_pages addr writable file offset total m).map page_read_bytes).sum
      = m * PGSIZE := by
  induction m with
  | zero => simp [seg_pages]
  | succ m ih =>
    have h5 : (m + 1) * PGSIZE ≤ total / PGSIZE * PGSIZE :=
      Nat.mul_le_mul_right _ hm
    have h6 := Nat.div_mul_le_self total PGSIZE
    have hfull : ¬ total - m * PGSIZE < PGSIZE := by
      rw [PGSIZE_eq] at *
      omega
    rw [seg_pages_succ, List.map_append, List.sum_append, ih (by omega)]
    simp only [List.map_cons, List.map_nil, List.sum_cons, List.sum_nil,
      page_read_bytes, seg_page, seg_aux, hfull, if_false]
    rw [Nat.add_mul]
    omega

theorem seg_pages_read_sum_all (addr : Nat) (writable : Bool)
    (file : Nat) (offset : Int) (total : Nat) :
    ((seg_pages addr writable file offset total (total / PGSIZE + 1)).map
      page_read_bytes).sum = total := by
  have hrem : total - total / PGSIZE * PGSIZE = total % PGSIZE := by
    have := Nat.div_add_mod total PGSIZE
    rw [Nat.mul_comm] at this
    omega
  have hlt : total % PGSIZE < PGSIZE := Nat.mod_lt _ (by rw [PGSIZE_eq]; omega)
  rw [seg_pages_succ, List.map_append, List.sum_append,
    seg_pages_read_sum _ _ _ _ _ _ (le_refl _)]
  simp only [List.map_cons, List.map_nil, List.sum_cons, List.sum_nil,
    page_read_bytes, seg_page, seg_aux, hrem, hlt, if_true]
  have := Nat.div_add_mod total PGSIZE
  rw [Nat.mul_comm] at this
  omega

theorem seg_aux_bounds (file : Nat) (offset : Int) (total i : Nat) :
    (seg_aux file offset total i).read_bytes ≤ PGSIZE ∧
    (seg_aux file offset total i).read_bytes +
      (seg_aux file offset total i).zero_bytes = PGSIZE := by
  simp only [seg_aux]
  split <;> omega

theorem seg_aux_zero_bytes_early (file : Nat) (offset : Int) (total i : Nat)
    (hi : i < total / PGSIZE) :
    (seg_aux file offset total i).zero_bytes = 0 := by
  have h5 : (i + 1) * PGSIZE ≤ total / PGSIZE * PGSIZE :=
    Nat.mul_le_mul_right _ hi
  have h6 := Nat.div_mul_le_self total PGSIZE
  have hfull : ¬ total - i * PGSIZE < PGSIZE := by
    rw [PGSIZE_eq] at *
    omega
  simp [seg_aux, hfull]

theorem seg_aux_last (file : Nat) (offset : Int) (total : Nat) :
    (seg_aux file offset total (total / PGSIZE)).read_bytes = total % PGSIZE ∧
    (seg_aux file offset total (total / PGSIZE)).zero_bytes
      = PGSIZE - total % PGSIZE := by
  have hrem : total - total / PGSIZE * PGSIZE = total % PGSIZE := by
    have := Nat.div_add_mod total PGSIZE
    rw [Nat.mul_comm] at this
    omega
  have hlt : total % PGSIZE < PGSIZE := Nat.mod_lt _ (by rw [PGSIZE_eq]; omega)
  simp [seg_aux, hrem, hlt]

/-- In a table grown by the first `m` segments at free addresses, the `i`-th
segment is found at its address. -/
theorem spt_find_page_seg (spt : List page) (addr : Nat) (writable : Bool)
    (file : Nat) (offset : Int) (total m i : Nat) (hi : i < m)
    (hfree : spt_find_page spt (addr + i * PGSIZE) = none) :
    spt_find_page (spt ++ seg_pages addr writable file offset total m)
        (addr + i * PGSIZE)
      = some (seg_page addr writable file offset total i) := by
  rw [spt_find_page_append, hfree]
  simp only [Option.or, spt_find_page, seg_pages]
  induction m with
  | zero => omega
  | succ m ih =>
    rw [List.range_succ, List.map_append, List.find?_append]
    by_cases him : i < m
    · rw [ih him]; rfl
    · have hii : i = m := by omega
      subst hii
      have hnone := spt_find_page_seg_pages_none addr writable file offset total i i
        (le_refl _)
      simp only [spt_find_page, seg_pages] at hnone
      rw [hnone]
      simp [seg_page]

theorem exists_first_failure (P : Nat → Bool) (n : Nat)
    (h : ¬ ∀ i, i ≤ n → P i = true) :
    ∃ k, k ≤ n ∧ (∀ i, i < k → P i = true) ∧ P k = false := by
  have hex : ∃ k, k ≤ n ∧ P k = false := by
    by_contra hc
    apply h
    intro i hi
    cases hp : P i
    · exact absurd ⟨i, hi, hp⟩ hc
    · rfl
  refine ⟨Nat.find hex, (Nat.find_spec hex).1, ?_, (Nat.find_spec hex).2⟩
  intro i hi
  have hmin := Nat.find_min hex hi
  cases hp : P i
  · exact absurd ⟨by have := (Nat.find_spec hex).1; omega, hp⟩ hmin
  · rfl

theorem min_div_le (length file_len : Nat) :
    min length file_len / PGSIZE ≤ length / PGSIZE :=
  Nat.div_le_div_right (Nat.min_le_left _ _)

/-- With enough fuel `do_mmap` always returns: the table grows by the first `m`
segments for some `m`, and the pointer returned is the address if all segments
were registered and `NULL` if not. -/
theorem do_mmap_returns (fuel : Nat) (env : mmap_env) (spt : List page)
    (addr length : Nat) (writable : Bool) (file : Nat) (offset : Int) (h : Nat)
    (hre : env.reopen file = some h)
    (hfuel : min length (file_length env h) / PGSIZE + 2 ≤ fuel) :
    ∃ m ret, m ≤ min length (file_length env h) / PGSIZE + 1 ∧
      do_mmap fuel env spt addr length writable file offset =
        some (ret, spt ++ seg_pages addr writable h offset
          (min length (file_length env h)) m) := by
  by_cases hall : ∀ i, i ≤ min length (file_length env h) / PGSIZE →
      reg_ok env spt addr i = true
  · exact ⟨_, addr, le_refl _,
      do_mmap_all_ok fuel env spt addr length writable file offset h hre hall hfuel⟩
  · obtain ⟨k, hk, hbefore, hbad⟩ := exists_first_failure _ _ hall
    exact ⟨k, NULL, by omega,
      do_mmap_first_failure fuel env spt addr length writable file offset h k hre hk
        hbefore hbad hfuel⟩

/-! ## Theorems on `do_mmap` -/

/-- C2, as the code has it: let the file offset be an `off_t` (`-2 ^ 31 ≤ offset`)
for which the offset of the last segment is still an `off_t`
(`offset + (min length file_size / PGSIZE) * PGSIZE ≤ 2 ^ 31 - 1`). When the
reopen and every registration succeed, the descriptors that `do_mmap` adds to
the table tile the file range in order: the `i`-th of them (from 0) is
registered at address `addr + i * PGSIZE` with file offset
`offset + i * PGSIZE`, and their `read_bytes` sum to `min length file_size`. -/
theorem do_mmap_segments_tile (fuel : Nat) (env : mmap_env) (spt : List page)
    (addr length : Nat) (writable : Bool) (file : Nat) (offset : Int) (h : Nat)
    (hre : env.reopen file = some h)
    (hok : ∀ i, i ≤ min length (file_length env h) / PGSIZE →
      reg_ok env spt addr i = true)
    (hfuel : min length (file_length env h) / PGSIZE + 2 ≤ fuel)
    (hlo : -2147483648 ≤ offset)
    (hhi : offset + ((min length (file_length env h) / PGSIZE * PGSIZE : Nat) : Int)
      ≤ 2147483647) :
    ∃ segs : List page,
      do_mmap fuel env spt addr length writable file offset
        = some (addr, spt ++ segs) ∧
      (∀ i p, segs[i]? = some p →
        p.va = addr + i * PGSIZE ∧
        page_offset p = offset + ((i * PGSIZE : Nat) : Int) ∧
        spt_find_page (spt ++ segs) (addr + i * PGSIZE) = some p) ∧
      (segs.map page_read_bytes).sum = min length (file_length env h) := by
  refine ⟨_, do_mmap_all_ok fuel env spt addr length writable file offset h hre hok
    hfuel, ?_, seg_pages_read_sum_all _ _ _ _ _⟩
  intro i p hp
  obtain ⟨hi, rfl⟩ := seg_pages_getElem? _ _ _ _ _ _ _ _ hp
  have hreg := hok i (by omega)
  simp only [reg_ok, Bool.and_eq_true, Option.isNone_iff_eq_none] at hreg
  refine ⟨rfl, ?_, spt_find_page_seg spt addr writable h offset _ _ i hi hreg.2⟩
  have hile : i * PGSIZE ≤ min length (file_length env h) / PGSIZE * PGSIZE :=
    Nat.mul_le_mul_right _ (by omega)
  have hcast : ((i * PGSIZE : Nat) : Int)
      ≤ ((min length (file_length env h) / PGSIZE * PGSIZE : Nat) : Int) :=
    Int.ofNat_le.mpr hile
  exact seg_offset_eq offset i hlo (by omega)

/-- C2 fails on the code: a file of 5000 bytes is mapped whole at the file offset
`2147479552 = 2 ^ 31 - PGSIZE`. Every registration succeeds, and the second
segment is registered with the file offset `-2147483648`, which is what
`offset += PGSIZE` leaves in the 32-bit `off_t`, not with
`2147479552 + PGSIZE`. -/
theorem do_mmap_offset_leaves_off_t :
    (do_mmap 3 (env_ok 5000) [] 65536 5000 true 3 2147479552).map
        (fun r => (r.1, r.2.map (fun p => (p.va, page_offset p))))
      = some (65536, [(65536, 2147479552), (69632, -2147483648)]) ∧
    (-2147483648 : Int) ≠ 2147479552 + ((1 * PGSIZE : Nat) : Int) := by
  have hrun := do_mmap_all_ok 3 (env_ok 5000) [] 65536 5000 true 3 2147479552
    4 rfl (fun _ _ => rfl) (by rw [file_length_env_ok, PGSIZE_eq]; decide)
  rw [file_length_env_ok] at hrun
  constructor
  · rw [hrun]
    decide
  · rw [PGSIZE_eq]
    decide

/-- C3: every descriptor that `do_mmap` registers, whether the call succeeds or
stops at a failing registration, carries a load argument with
`read_bytes ≤ PGSIZE` and `read_bytes + zero_bytes = PGSIZE`; and
`file_backed_initializer`, applied to any uninitialized descriptor carrying that
argument, copies `file`, `offset`, `read_bytes` and `zero_bytes` unchanged into
the file-backed state, for which the same equation therefore holds. -/
theorem do_mmap_load_arg_invariant (fuel : Nat) (env : mmap_env) (spt : List page)
    (addr length : Nat) (writable : Bool) (file : Nat) (offset : Int)
    (hfuel : length / PGSIZE + 2 ≤ fuel) :
    ∃ ret segs,
      do_mmap fuel env spt addr length writable file offset
        = some (ret, spt ++ segs) ∧
      ∀ p, p ∈ segs → ∃ aux, p.st = .uninit aux ∧
        aux.read_bytes ≤ PGSIZE ∧ aux.read_bytes + aux.zero_bytes = PGSIZE ∧
        ∀ (q : page) (type : vm_type) (kva : Nat), q.st = .uninit aux →
          ∃ fp, file_backed_initializer q type kva = some { q with st := .file fp } ∧
            fp.file = aux.file ∧ fp.offset = aux.offset ∧
            fp.read_bytes = aux.read_bytes ∧ fp.zero_bytes = aux.zero_bytes ∧
            fp.read_bytes + fp.zero_bytes = PGSIZE := by
  cases hre : env.reopen file with
  | none =>
    exact ⟨NULL, [], by
      rw [do_mmap_reopen_none fuel env spt addr length writable file offset hre,
        List.append_nil], by simp⟩
  | some h =>
    have hf : min length (file_length env h) / PGSIZE + 2 ≤ fuel := by
      have := min_div_le length (file_length env h)
      omega
    obtain ⟨m, ret, _, hrun⟩ :=
      do_mmap_returns fuel env spt addr length writable file offset h hre hf
    refine ⟨ret, _, hrun, ?_⟩
    intro p hp
    simp only [seg_pages, List.mem_map, List.mem_range] at hp
    obtain ⟨i, _, rfl⟩ := hp
    have hb := seg_aux_bounds h offset (min length (file_length env h)) i
    refine ⟨_, rfl, hb.1, hb.2, ?_⟩
    intro q type kva hq
    refine ⟨⟨_, _, _, _⟩, ?_, rfl, rfl, rfl, rfl, hb.2⟩
    simp [file_backed_initializer, hq]

/-- C5: when the reopen and every registration succeed, the sequence of
descriptors `do_mmap` registers is non-empty, its last element has
`zero_bytes > 0` and every earlier element has `zero_bytes = 0`. -/
theorem do_mmap_last_segment_marker (fuel : Nat) (env : mmap_env) (spt : List page)
    (addr length : Nat) (writable : Bool) (file : Nat) (offset : Int) (h : Nat)
    (hre : env.reopen file = some h)
    (hok : ∀ i, i ≤ min length (file_length env h) / PGSIZE →
      reg_ok env spt addr i = true)
    (hfuel : min length (file_length env h) / PGSIZE + 2 ≤ fuel) :
    ∃ segs : List page,
      do_mmap fuel env spt addr length writable file offset
        = some (addr, spt ++ segs) ∧
      segs ≠ [] ∧
      ∀ i p, segs[i]? = some p →
        (i + 1 = segs.length → 0 < page_zero_bytes p) ∧
        (i + 1 < segs.length → page_zero_bytes p = 0) := by
  refine ⟨_, do_mmap_all_ok fuel env spt addr length writable file offset h hre hok
    hfuel, ?_, ?_⟩
  · intro hnil
    have := congrArg List.length hnil
    rw [seg_pages_length] at this
    simp at this
  · intro i p hp
    obtain ⟨_, rfl⟩ := seg_pages_getElem? _ _ _ _ _ _ _ _ hp
    rw [seg_pages_length]
    constructor
    · intro hi
      have hi2 : i = min length (file_length env h) / PGSIZE := by omega
      subst hi2
      have hl := (seg_aux_last h offset (min length (file_length env h))).2
      have hlt : min length (file_length env h) % PGSIZE < PGSIZE :=
        Nat.mod_lt _ (by rw [PGSIZE_eq]; omega)
      simp only [page_zero_bytes, seg_page]
      omega
    · intro hi
      simp only [page_zero_bytes, seg_page]
      exact seg_aux_zero_bytes_early _ _ _ _ (by omega)

/-- C9: with enough fuel `do_mmap` returns. It returns the starting address, the
table having grown by all segments, when the reopen and every registration
succeed, and `NULL` otherwise. When the reopen fails the table is unchanged;
when segment `k` is the first whose registration does not succeed, the table
has grown by exactly the `k` segments before it. -/
theorem do_mmap_result (fuel : Nat) (env : mmap_env) (spt : List page)
    (addr length : Nat) (writable : Bool) (file : Nat) (offset : Int)
    (hfuel : length / PGSIZE + 2 ≤ fuel) :
    ∃ ret spt1,
      do_mmap fuel env spt addr length writable file offset = some (ret, spt1) ∧
      (∀ h, env.reopen file = some h →
        (∀ i, i ≤ min length (file_length env h) / PGSIZE →
          reg_ok env spt addr i = true) →
        ret = addr ∧
        spt1 = spt ++ seg_pages addr writable h offset
          (min length (file_length env h))
          (min length (file_length env h) / PGSIZE + 1)) ∧
      (¬ (∃ h, env.reopen file = some h ∧
          ∀ i, i ≤ min length (file_length env h) / PGSIZE →
            reg_ok env spt addr i = true) → ret = NULL) ∧
      (env.reopen file = none → spt1 = spt) ∧
      (∀ h k, env.reopen file = some h →
        k ≤ min length (file_length env h) / PGSIZE →
        (∀ i, i < k → reg_ok env spt addr i = true) →
        reg_ok env spt addr k = false →
        spt1 = spt ++ seg_pages addr writable h offset
          (min length (file_length env h)) k) := by
  cases hre : env.reopen file with
  | none =>
    refine ⟨NULL, spt,
      do_mmap_reopen_none fuel env spt addr length writable file offset hre,
      ?_, ?_, ?_, ?_⟩
    · intro h hh; cases hh
    · intro _; rfl
    · intro _; rfl
    · intro h k hh; cases hh
  | some h =>
    have hf : min length (file_length env h) / PGSIZE + 2 ≤ fuel := by
      have := min_div_le length (file_length env h)
      omega
    by_cases hall : ∀ i, i ≤ min length (file_length env h) / PGSIZE →
        reg_ok env spt addr i = true
    · refine ⟨addr, _,
        do_mmap_all_ok fuel env spt addr length writable file offset h hre hall hf,
        ?_, ?_, ?_, ?_⟩
      · intro h1 hh _
        cases hh
        exact ⟨rfl, rfl⟩
      · intro hno
        exact absurd ⟨h, rfl, hall⟩ hno
      · intro hh; cases hh
      · intro h1 k hh hk _ hbad
        cases hh
        rw [hall k hk] at hbad
        cases hbad
    · obtain ⟨k, hk, hbefore, hbad⟩ := exists_first_failure _ _ hall
      refine ⟨NULL, _,
        do_mmap_first_failure fuel env spt addr length writable file offset h k hre
          hk hbefore hbad hf, ?_, ?_, ?_, ?_⟩
      · intro h1 hh hall1
        cases hh
        exact absurd hall1 hall
      · intro _; rfl
      · intro hh; cases hh
      · intro h1 k1 hh hk1 hbefore1 hbad1
        cases hh
        have hkk : k1 = k := by
          rcases Nat.lt_trichotomy k1 k with hlt | heq | hgt
          · rw [hbefore k1 hlt] at hbad1; cases hbad1
          · exact heq
          · rw [hbefore1 k hgt] at hbad; cases hbad
        rw [hkk]

/-- C10, as the code has it: when the reopen and every registration succeed and
`min length file_size` is a multiple `k * PGSIZE`, `do_mmap` registers exactly
`k + 1` descriptors; the first `k` have `read_bytes = PGSIZE` and
`zero_bytes = 0`, the last has `read_bytes = 0` and `zero_bytes = PGSIZE`. -/
theorem do_mmap_page_multiple (fuel : Nat) (env : mmap_env) (spt : List page)
    (addr length : Nat) (writable : Bool) (file : Nat) (offset : Int) (h k : Nat)
    (hre : env.reopen file = some h)
    (hmul : min length (file_length env h) = k * PGSIZE)
    (hok : ∀ i, i ≤ k → reg_ok env spt addr i = true)
    (hfuel : k + 2 ≤ fuel) :
    ∃ segs : List page,
      do_mmap fuel env spt addr length writable file offset
        = some (addr, spt ++ segs) ∧
      segs.length = k + 1 ∧
      ∀ i p, segs[i]? = some p →
        (i < k → page_read_bytes p = PGSIZE ∧ page_zero_bytes p = 0) ∧
        (i = k → page_read_bytes p = 0 ∧ page_zero_bytes p = PGSIZE) := by
  have hpos : 0 < PGSIZE := by rw [PGSIZE_eq]; omega
  have hdiv : min length (file_length env h) / PGSIZE = k := by
    rw [hmul, Nat.mul_div_cancel _ hpos]
  have hmod : min length (file_length env h) % PGSIZE = 0 := by
    rw [hmul, Nat.mul_mod_left]
  refine ⟨_, do_mmap_all_ok fuel env spt addr length writable file offset h hre
    (by rw [hdiv]; exact hok) (by rw [hdiv]; exact hfuel), ?_, ?_⟩
  · rw [seg_pages_length, hdiv]
  · intro i p hp
    obtain ⟨_, rfl⟩ := seg_pages_getElem? _ _ _ _ _ _ _ _ hp
    constructor
    · intro hi
      have hb := seg_aux_bounds h offset (min length (file_length env h)) i
      have hz := seg_aux_zero_bytes_early h offset
        (min length (file_length env h)) i (by rw [hdiv]; exact hi)
      simp only [page_read_bytes, page_zero_bytes, seg_page]
      omega
    · intro hi
      subst hi
      have hl := seg_aux_last h offset (min length (file_length env h))
      rw [hdiv, hmod] at hl
      simp only [page_read_bytes, page_zero_bytes, seg_page]
      exact ⟨hl.1, by rw [hl.2]; rfl⟩

/-! ## The loops of `file_backed_swap_out` -/

theorem swap_out_scan_fold (d : Nat → Bool) (l : List Nat) (b : Bool) :
    l.foldl (fun flg th => if d th then true else flg) b = (b || l.any d) := by
  induction l generalizing b with
  | nil => simp
  | cons x xs ih =>
    rw [List.foldl_cons, ih]
    cases hd : d x <;> cases b <;> simp [hd]

theorem swap_out_scan_eq (w : world) (va : Nat) (l : List Nat) :
    swap_out_scan w va l = l.any (fun th => pml4_is_dirty (w.pml4 th) va) := by
  unfold swap_out_scan
  rw [swap_out_scan_fold (fun th => pml4_is_dirty (w.pml4 th) va)]
  simp

theorem swap_out_scan_true (w : world) (va : Nat) (l : List Nat)
    (h : ∃ th, th ∈ l ∧ pml4_is_dirty (w.pml4 th) va = true) :
    swap_out_scan w va l = true := by
  rw [swap_out_scan_eq, List.any_eq_true]
  exact h

theorem swap_out_scan_false (w : world) (va : Nat) (l : List Nat)
    (h : ∀ th, th ∈ l → pml4_is_dirty (w.pml4 th) va = false) :
    swap_out_scan w va l = false := by
  rw [swap_out_scan_eq, List.any_eq_false]
  intro th hth
  simp [h th hth]

theorem swap_out_unmap_writes (flg : Bool) (va : Nat) (w : world) (l : List Nat) :
    (swap_out_unmap flg va w l).writes = w.writes ∧
    (swap_out_unmap flg va w l).persisted = w.persisted := by
  unfold swap_out_unmap
  induction l generalizing w with
  | nil => exact ⟨rfl, rfl⟩
  | cons x xs ih =>
    rw [List.foldl_cons]
    refine ⟨(ih _).1.trans ?_, (ih _).2.trans ?_⟩ <;> cases flg <;> rfl

/-- What the second loop leaves in the translation tables: the entry of the
page in a registered thread is not present, and not dirty if `flg` is set; all
other entries are as before. -/
theorem swap_out_unmap_pml4 (flg : Bool) (va : Nat) (w : world) (l : List Nat)
    (th a : Nat) :
    (swap_out_unmap flg va w l).pml4 th a =
      if th ∈ l ∧ a = va then
        { present := false,
          dirty := if flg then false else (w.pml4 th va).dirty }
      else w.pml4 th a := by
  unfold swap_out_unmap
  induction l generalizing w with
  | nil => simp
  | cons x xs ih =>
    rw [List.foldl_cons, ih]
    by_cases hx : th = x <;> by_cases ha : a = va <;> by_cases hmem : th ∈ xs <;>
      cases flg <;>
      simp [hmem, hx, ha, set_pml4, pml4_clear_page, pml4_set_dirty]

/-- The result of `file_backed_swap_out` on a file-backed page. -/
theorem file_backed_swap_out_eq (w : world) (p : page) (fp : file_page)
    (hst : p.st = .file fp) :
    file_backed_swap_out w p =
      some (true,
        swap_out_unmap (swap_out_scan w p.va p.box_list) p.va
          (if swap_out_scan w p.va p.box_list
            then (file_write_at w fp.file p.va fp.read_bytes fp.offset).2 else w)
          p.box_list,
        { p with frame := none }) := by
  simp only [file_backed_swap_out, hst]

/-! ## Theorems on `file_backed_swap_out` -/

/-- C1: `file_backed_swap_out` on a file-backed page returns `true`; if at least
one registered thread marks the page dirty it makes exactly one call of
`file_write_at`, of `read_bytes` bytes at the page's `offset` to the page's
`file`, and if none does it makes no call at all. -/
theorem file_backed_swap_out_write_count (w : world) (p : page) (fp : file_page)
    (hst : p.st = .file fp) :
    ∃ w1, file_backed_swap_out w p = some (true, w1, { p with frame := none }) ∧
      ((∃ th, th ∈ p.box_list ∧ pml4_is_dirty (w.pml4 th) p.va = true) →
        w1.writes = w.writes ++
          [{ file := fp.file, buffer := p.va, size := fp.read_bytes,
             file_ofs := fp.offset }]) ∧
      ((∀ th, th ∈ p.box_list → pml4_is_dirty (w.pml4 th) p.va = false) →
        w1.writes = w.writes) := by
  refine ⟨_, file_backed_swap_out_eq w p fp hst, ?_, ?_⟩
  · intro hd
    rw [(swap_out_unmap_writes _ _ _ _).1, swap_out_scan_true w p.va p.box_list hd]
    rfl
  · intro hc
    rw [(swap_out_unmap_writes _ _ _ _).1, swap_out_scan_false w p.va p.box_list hc]
    rfl

/-- C7: after `file_backed_swap_out` on a file-backed page of which at least one
registered thread marks the page dirty, no registered thread marks it dirty;
and in every case the translation of the page is not present in any registered
thread and the descriptor holds no frame. -/
theorem file_backed_swap_out_unmaps (w : world) (p : page) (fp : file_page)
    (hst : p.st = .file fp) :
    ∃ w1 p1, file_backed_swap_out w p = some (true, w1, p1) ∧
      ((∃ th, th ∈ p.box_list ∧ pml4_is_dirty (w.pml4 th) p.va = true) →
        ∀ th, th ∈ p.box_list → pml4_is_dirty (w1.pml4 th) p.va = false) ∧
      (∀ th, th ∈ p.box_list → (w1.pml4 th p.va).present = false) ∧
      p1.frame = none := by
  refine ⟨_, _, file_backed_swap_out_eq w p fp hst, ?_, ?_, rfl⟩
  · intro hd th hth
    rw [pml4_is_dirty, swap_out_unmap_pml4, swap_out_scan_true w p.va p.box_list hd]
    simp [hth]
  · intro th hth
    rw [swap_out_unmap_pml4]
    simp [hth]

/-- C8, as the code has it: whatever number of bytes the write-back persists,
`file_backed_swap_out` on a file-backed page returns `true` and the descriptor
holds no frame afterwards. -/
theorem file_backed_swap_out_ignores_write_result (w : world) (p : page)
    (fp : file_page) (hst : p.st = .file fp) (persisted : file_write → Nat) :
    (file_backed_swap_out { w with persisted := persisted } p).map
        (fun r => (r.1, r.2.2))
      = some (true, { p with frame := none }) := by
  rw [file_backed_swap_out_eq _ p fp hst]
  rfl

/-- C8 fails on the code: thread 1 marks the page dirty, the write-back of its
ten bytes persists none of them, and yet `file_backed_swap_out` returns `true`
and the descriptor has lost its frame. -/
theorem file_backed_swap_out_write_failure_unreported :
    swap_out_scan w_write_fails pg_shared.va pg_shared.box_list = true ∧
    (file_write_at w_write_fails 4 pg_shared.va 10 0).1 < 10 ∧
    pg_shared.frame ≠ none ∧
    (file_backed_swap_out w_write_fails pg_shared).map
        (fun r => (r.1, r.2.2.frame, r.2.1.writes))
      = some (true, none,
          [{ file := 4, buffer := 65536, size := 10, file_ofs := 0 }]) := by
  refine ⟨by decide, by decide, by simp [pg_shared], by decide⟩

/-! ## The loop of `do_munmap` -/

theorem spt_find_page_va (spt : List page) (a : Nat) (p : page)
    (h : spt_find_page spt a = some p) : p.va = a := by
  have := List.find?_some h
  simpa using this

theorem spt_find_page_filter_ne (spt : List page) (a b : Nat) (hab : b ≠ a) :
    spt_find_page (spt.filter (fun q => decide (q.va ≠ a))) b
      = spt_find_page spt b := by
  unfold spt_find_page
  induction spt with
  | nil => rfl
  | cons x xs ih =>
    rw [List.filter_cons]
    by_cases hx : x.va = a
    · have h1 : decide (x.va ≠ a) = false := by simp [hx]
      have h2 : decide (x.va = b) = false := by
        simp only [decide_eq_false_iff_not]; omega
      rw [h1, List.find?_cons, h2]
      simpa using ih
    · have h1 : decide (x.va ≠ a) = true := by simp [hx]
      rw [h1]
      simp only [if_true, List.find?_cons]
      rw [ih]

theorem mmap_addrs_succ (addr m : Nat) :
    mmap_addrs addr (m + 1) = addr :: mmap_addrs (addr + PGSIZE) m := by
  simp only [mmap_addrs, List.range_succ_eq_map, List.map_cons, List.map_map,
    Nat.zero_mul, Nat.add_zero]
  congr 1
  apply List.map_congr_left
  intro i _
  simp only [Function.comp, Nat.succ_eq_add_one, Nat.add_mul, Nat.one_mul]
  omega

theorem filter_mmap_addrs_succ (spt : List page) (addr m : Nat) :
    (spt.filter (fun q => decide (q.va ≠ addr))).filter
        (fun q => decide (q.va ∉ mmap_addrs (addr + PGSIZE) m))
      = spt.filter (fun q => decide (q.va ∉ mmap_addrs addr (m + 1))) := by
  rw [List.filter_filter, mmap_addrs_succ]
  apply List.filter_congr
  intro q _
  by_cases h1 : q.va = addr <;>
    by_cases h2 : q.va ∈ mmap_addrs (addr + PGSIZE) m <;> simp [h1, h2]

/-- One iteration of the loop of `do_munmap` on a descriptor of type `VM_FILE`:
the descriptor leaves the table and `flg` records whether its `zero_bytes` is
nonzero. -/
theorem do_munmap_loop_step (curr fuel : Nat) (w : world) (spt : List page)
    (a : Nat) (p : page) (hf : spt_find_page spt a = some p)
    (ht : p.type = .VM_FILE) :
    do_munmap_loop curr (fuel + 1) w spt a false =
      do_munmap_loop curr fuel (spt_remove_page w curr spt p).1
        (spt.filter (fun q => decide (q.va ≠ a))) (a + PGSIZE)
        (decide (page_zero_bytes p ≠ 0)) := by
  have hva := spt_find_page_va spt a p hf
  simp only [do_munmap_loop, hf, ht, ne_eq, not_true_eq_false, if_false,
    Bool.false_eq_true, spt_remove_page, hva]
  congr 1
  cases hst : p.st <;> simp [page_zero_bytes, hst]

/-- Walking a run of `n + 1` descriptors of type `VM_FILE` of which only the
last has nonzero `zero_bytes`: the loop ends and exactly the descriptors at the
`n + 1` addresses have left the table. -/
theorem do_munmap_loop_walk (curr : Nat) (n : Nat) :
    ∀ (fuel : Nat) (w : world) (spt : List page) (addr : Nat),
      n + 2 ≤ fuel →
      (∀ i, i ≤ n → ∃ p, spt_find_page spt (addr + i * PGSIZE) = some p ∧
        p.type = .VM_FILE ∧ (i < n → page_zero_bytes p = 0) ∧
        (i = n → page_zero_bytes p ≠ 0)) →
      ∃ w1, do_munmap_loop curr fuel w spt addr false =
        some (w1, spt.filter (fun q => decide (q.va ∉ mmap_addrs addr (n + 1)))) := by
  induction n with
  | zero =>
    intro fuel w spt addr hfuel hpages
    obtain ⟨g, rfl⟩ : ∃ g, fuel = g + 1 + 1 := ⟨fuel - 2, by omega⟩
    obtain ⟨p, hf, ht, _, hz⟩ := hpages 0 (le_refl _)
    rw [Nat.zero_mul, Nat.add_zero] at hf
    rw [do_munmap_loop_step curr (g + 1) w spt addr p hf ht]
    have hflg : decide (page_zero_bytes p ≠ 0) = true := by simpa using hz rfl
    rw [hflg]
    refine ⟨(spt_remove_page w curr spt p).1, ?_⟩
    simp only [do_munmap_loop, if_true]
    congr 2
    apply List.filter_congr
    intro q _
    simp [mmap_addrs, eq_comm]
  | succ n ih =>
    intro fuel w spt addr hfuel hpages
    obtain ⟨g, rfl⟩ : ∃ g, fuel = g + 1 := ⟨fuel - 1, by omega⟩
    obtain ⟨p, hf, ht, hz, _⟩ := hpages 0 (by omega)
    rw [Nat.zero_mul, Nat.add_zero] at hf
    rw [do_munmap_loop_step curr g w spt addr p hf ht]
    have hflg : decide (page_zero_bytes p ≠ 0) = false := by
      simpa using hz (by omega)
    rw [hflg]
    have hrest : ∀ i, i ≤ n → ∃ q,
        spt_find_page (spt.filter (fun q => decide (q.va ≠ addr)))
          (addr + PGSIZE + i * PGSIZE) = some q ∧
        q.type = .VM_FILE ∧ (i < n → page_zero_bytes q = 0) ∧
        (i = n → page_zero_bytes q ≠ 0) := by
      intro i hi
      obtain ⟨q, hq, hqt, hqz, hql⟩ := hpages (i + 1) (by omega)
      have hadd : addr + PGSIZE + i * PGSIZE = addr + (i + 1) * PGSIZE := by
        rw [Nat.add_mul, Nat.one_mul]; omega
      refine ⟨q, ?_, hqt, fun h => hqz (by omega), fun h => hql (by omega)⟩
      rw [hadd, spt_find_page_filter_ne]
      · exact hq
      · rw [PGSIZE_eq]; omega
    obtain ⟨w1, hw1⟩ := ih g (spt_remove_page w curr spt p).1
      (spt.filter (fun q => decide (q.va ≠ addr))) (addr + PGSIZE) (by omega) hrest
    exact ⟨w1, by rw [hw1, filter_mmap_addrs_succ]⟩

/-- A call of `do_mmap` that returns a non-null pointer has registered every
segment. -/
theorem do_mmap_nonnull (fuel : Nat) (env : mmap_env) (spt : List page)
    (addr length : Nat) (writable : Bool) (file : Nat) (offset : Int) (h ret : Nat)
    (spt1 : List page)
    (hre : env.reopen file = some h)
    (hfuel : min length (file_length env h) / PGSIZE + 2 ≤ fuel)
    (hmap : do_mmap fuel env spt addr length writable file offset = some (ret, spt1))
    (hret : ret ≠ NULL) :
    (∀ i, i ≤ min length (file_length env h) / PGSIZE →
      reg_ok env spt addr i = true) ∧
    spt1 = spt ++ seg_pages addr writable h offset (min length (file_length env h))
      (min length (file_length env h) / PGSIZE + 1) := by
  by_cases hall : ∀ i, i ≤ min length (file_length env h) / PGSIZE →
      reg_ok env spt addr i = true
  · refine ⟨hall, ?_⟩
    rw [do_mmap_all_ok fuel env spt addr length writable file offset h hre hall hfuel]
      at hmap
    simp only [Option.some.injEq, Prod.mk.injEq] at hmap
    exact hmap.2.symm
  · obtain ⟨k, hk, hbefore, hbad⟩ := exists_first_failure _ _ hall
    rw [do_mmap_first_failure fuel env spt addr length writable file offset h k hre hk
      hbefore hbad hfuel] at hmap
    simp only [Option.some.injEq, Prod.mk.injEq] at hmap
    exact absurd hmap.1.symm hret

/-! ## Theorem on `do_munmap` -/

/-- C4: let a call of `do_mmap` at `addr` succeed, registering the `N` segments
of a mapping, and let the table `spt2` at a later time still hold a descriptor at
each of the `N` addresses, each either as registered or turned file-backed by
`file_backed_initializer`; whatever else `spt2` holds (for instance a mapping
that starts at `addr + N * PGSIZE`), `do_munmap (addr)` returns and the table it
leaves is `spt2` without the descriptors at the `N` addresses
`addr, addr + PGSIZE, ..., addr + (N - 1) * PGSIZE`, all others being kept. -/
theorem do_munmap_removes_mapping (fuel fuel2 : Nat) (env : mmap_env)
    (spt0 : List page) (addr length : Nat) (writable : Bool)
    (file : Nat) (offset : Int) (h ret : Nat) (spt1 : List page) (curr : Nat) (w : world)
    (spt2 : List page)
    (hre : env.reopen file = some h)
    (hfuel : min length (file_length env h) / PGSIZE + 2 ≤ fuel)
    (hmap : do_mmap fuel env spt0 addr length writable file offset
      = some (ret, spt1))
    (hret : ret ≠ NULL)
    (hlive : ∀ i, i ≤ min length (file_length env h) / PGSIZE →
      ∃ q p, spt_find_page spt1 (addr + i * PGSIZE) = some q ∧
        spt_find_page spt2 (addr + i * PGSIZE) = some p ∧
        p.type = q.type ∧
        (p.st = q.st ∨
          ∃ q1 ty kva, file_backed_initializer q ty kva = some q1 ∧ p.st = q1.st))
    (hfuel2 : min length (file_length env h) / PGSIZE + 2 ≤ fuel2) :
    ∃ w1, do_munmap fuel2 curr w spt2 addr =
      some (w1, spt2.filter (fun q => decide (q.va ∉
        mmap_addrs addr (min length (file_length env h) / PGSIZE + 1)))) := by
  obtain ⟨hall, hspt1⟩ :=
    do_mmap_nonnull fuel env spt0 addr length writable file offset h ret spt1 hre
      hfuel hmap hret
  subst hspt1
  apply do_munmap_loop_walk curr _ fuel2 w spt2 addr hfuel2
  intro i hi
  obtain ⟨q, p, hq, hp, hty, hst⟩ := hlive i hi
  have hreg := hall i hi
  simp only [reg_ok, Bool.and_eq_true, Option.isNone_iff_eq_none] at hreg
  rw [spt_find_page_seg spt0 addr writable h offset _ _ i (by omega) hreg.2] at hq
  simp only [Option.some.injEq] at hq
  subst hq
  have hzb : page_zero_bytes p =
      (seg_aux h offset (min length (file_length env h)) i).zero_bytes := by
    rcases hst with hst | ⟨q1, ty, kva, hinit, hst⟩
    · simp [page_zero_bytes, hst, seg_page]
    · simp only [file_backed_initializer, seg_page, Option.some.injEq] at hinit
      subst hinit
      simp [page_zero_bytes, hst]
  refine ⟨p, hp, by rw [hty]; rfl, ?_, ?_⟩
  · intro hlt
    rw [hzb]
    exact seg_aux_zero_bytes_early _ _ _ _ hlt
  · intro heq
    subst heq
    rw [hzb, (seg_aux_last h offset (min length (file_length env h))).2]
    have hlt : min length (file_length env h) % PGSIZE < PGSIZE :=
      Nat.mod_lt _ (by rw [PGSIZE_eq]; omega)
    omega

/-! ## `file_backed_swap_in` -/

/-- When the file holds `read_bytes` bytes from the non-negative `offset` on and
the frame is a page long, `file_backed_swap_in` fills the frame with those
bytes followed by `zero_bytes` zeros. -/
theorem file_backed_swap_in_within_file (data : Nat → List Nat) (p : page)
    (fp : file_page) (frame : List Nat) (kva : Nat)
    (hst : p.st = .file fp) (hfr : p.frame = some frame)
    (hlen : frame.length = PGSIZE)
    (hsum : fp.read_bytes + fp.zero_bytes = PGSIZE)
    (hpos : 0 ≤ fp.offset)
    (hin : fp.offset.toNat + fp.read_bytes ≤ (data fp.file).length) :
    file_backed_swap_in data p kva =
      some (true,
        { p with
          frame := some (((data fp.file).drop fp.offset.toNat).take fp.read_bytes
                          ++ List.replicate fp.zero_bytes 0) }) := by
  have hneg : ¬ fp.offset < 0 := by omega
  have hb : (((data fp.file).drop fp.offset.toNat).take fp.read_bytes).length
      = fp.read_bytes := by
    rw [List.length_take, List.length_drop]
    omega
  simp only [file_backed_swap_in, hst, hfr, file_read_at, memset, hneg, if_false, hb]
  have h1 : (((data fp.file).drop fp.offset.toNat).take fp.read_bytes
      ++ frame.drop fp.read_bytes).take fp.read_bytes
      = ((data fp.file).drop fp.offset.toNat).take fp.read_bytes := by
    rw [List.take_append_of_le_length (by omega), List.take_of_length_le (by omega)]
  have h2 : (((data fp.file).drop fp.offset.toNat).take fp.read_bytes
      ++ frame.drop fp.read_bytes).drop (fp.read_bytes + fp.zero_bytes) = [] := by
    apply List.drop_of_length_le
    rw [List.length_append, hb, List.length_drop]
    omega
  rw [h1, h2, List.append_nil]

/-- C6 fails on the code: the last page of a file of `PGSIZE + 1` bytes is
mapped (offset `PGSIZE`, length `PGSIZE`). `do_mmap` gives the first descriptor
`read_bytes = PGSIZE` although the file holds a single byte from that offset on;
after `file_backed_initializer` and `file_backed_swap_in` on a frame that held
the byte 170 everywhere, swap-in reports success and the frame holds the file
byte 7 followed by `PGSIZE - 1` stale bytes 170, which are neither file content
nor zero. -/
theorem file_backed_swap_in_short_read_leaves_stale_bytes :
    do_mmap 3 (env_ok 4097) [] 65536 4096 true 3 4096
      = some (65536, [pg_tail, pg_tail_end]) ∧
    page_read_bytes pg_tail = 4096 ∧ page_offset pg_tail = 4096 ∧
    ((env_ok 4097).data 4).drop 4096 = [7] ∧
    file_backed_initializer { pg_tail with frame := some stale_frame } .VM_FILE 0
      = some pg_tail_file ∧
    ∃ r, file_backed_swap_in (env_ok 4097).data pg_tail_file 0 = some (true, r) ∧
      r.frame = some (7 :: List.replicate 4095 170) := by
  refine ⟨?_, rfl, rfl, ?_, rfl, _, rfl, ?_⟩
  · rw [do_mmap_all_ok 3 (env_ok 4097) [] 65536 4096 true 3 4096 4 rfl
      (fun _ _ => rfl) (by rw [file_length_env_ok, PGSIZE_eq]; decide)]
    rw [file_length_env_ok]
    rfl
  · simp only [env_ok, List.drop_replicate]
    rfl
  · have hofs : Int.toNat 4096 = 4096 := rfl
    have hneg : ¬ (4096 : Int) < 0 := by decide
    simp only [pg_tail_file, file_read_at, memset, env_ok, stale_frame, PGSIZE_eq,
      hofs, hneg, if_false, List.drop_replicate, List.take_replicate,
      List.length_replicate, Option.some.injEq]
    norm_num

/-! ## Instances at concrete inputs -/

/-- Instance of C1: threads 1 and 2 map the page and only thread 1 marks it
dirty; swap-out makes the one write of ten bytes at offset 0 to file 4. -/
theorem file_backed_swap_out_write_count_witness :
    ∃ w1, file_backed_swap_out w_one_dirty pg_shared
        = some (true, w1, { pg_shared with frame := none }) ∧
      w1.writes = [{ file := 4, buffer := 65536, size := 10, file_ofs := 0 }] := by
  obtain ⟨w1, hrun, hdirty, _⟩ :=
    file_backed_swap_out_write_count w_one_dirty pg_shared
      { file := 4, offset := 0, read_bytes := 10, zero_bytes := 4086 } rfl
  exact ⟨w1, hrun, hdirty ⟨1, by decide, by decide⟩⟩

/-- Instance of C7: threads 1 and 2 map the page and only thread 1 marks it
dirty; after swap-out neither marks it dirty, neither has the translation, and
the descriptor holds no frame. -/
theorem file_backed_swap_out_unmaps_witness :
    ∃ w1 p1, file_backed_swap_out w_one_dirty pg_shared = some (true, w1, p1) ∧
      (∀ th, th ∈ [1, 2] → pml4_is_dirty (w1.pml4 th) 65536 = false) ∧
      (∀ th, th ∈ [1, 2] → (w1.pml4 th 65536).present = false) ∧
      p1.frame = none := by
  obtain ⟨w1, p1, hrun, hdirty, hunmap, hframe⟩ :=
    file_backed_swap_out_unmaps w_one_dirty pg_shared
      { file := 4, offset := 0, read_bytes := 10, zero_bytes := 4086 } rfl
  exact ⟨w1, p1, hrun, hdirty ⟨1, by decide, by decide⟩, hunmap, hframe⟩

/-- Instance of C8 as the code has it: no byte of the write-back persists, and
swap-out returns `true` with the frame dropped. -/
theorem file_backed_swap_out_ignores_write_result_witness :
    (file_backed_swap_out { w_one_dirty with persisted := fun _ => 0 }
        pg_shared).map (fun r => (r.1, r.2.2))
      = some (true, { pg_shared with frame := none }) :=
  file_backed_swap_out_ignores_write_result w_one_dirty pg_shared
    { file := 4, offset := 0, read_bytes := 10, zero_bytes := 4086 } rfl
    (fun _ => 0)

/-- Instance of C2 as the code has it: a file of 5000 bytes mapped with length
10000 at the file offset 4096. -/
theorem do_mmap_segments_tile_witness :
    ∃ segs : List page,
      do_mmap 3 (env_ok 5000) [] 65536 10000 true 3 4096
        = some (65536, [] ++ segs) ∧
      (∀ i p, segs[i]? = some p →
        p.va = 65536 + i * PGSIZE ∧
        page_offset p = 4096 + ((i * PGSIZE : Nat) : Int) ∧
        spt_find_page ([] ++ segs) (65536 + i * PGSIZE) = some p) ∧
      (segs.map page_read_bytes).sum = 5000 := by
  have h := do_mmap_segments_tile 3 (env_ok 5000) [] 65536 10000 true 3 4096 4 rfl
    (fun _ _ => rfl) (by rw [file_length_env_ok, PGSIZE_eq]; decide) (by decide)
    (by rw [file_length_env_ok, PGSIZE_eq]; decide)
  rw [file_length_env_ok] at h
  exact h

/-- Instance of C3: a file of two pages whose second registration fails. -/
theorem do_mmap_load_arg_invariant_witness :
    ∃ ret segs,
      do_mmap 4 (env_fail_at_1 8192) [] 65536 8192 true 3 0
        = some (ret, [] ++ segs) ∧
      ∀ p, p ∈ segs → ∃ aux, p.st = .uninit aux ∧
        aux.read_bytes ≤ PGSIZE ∧ aux.read_bytes + aux.zero_bytes = PGSIZE ∧
        ∀ (q : page) (type : vm_type) (kva : Nat), q.st = .uninit aux →
          ∃ fp, file_backed_initializer q type kva = some { q with st := .file fp } ∧
            fp.file = aux.file ∧ fp.offset = aux.offset ∧
            fp.read_bytes = aux.read_bytes ∧ fp.zero_bytes = aux.zero_bytes ∧
            fp.read_bytes + fp.zero_bytes = PGSIZE :=
  do_mmap_load_arg_invariant 4 (env_fail_at_1 8192) [] 65536 8192 true 3 0
    (by decide)

/-- Instance of C5: a file of 5000 bytes mapped whole. -/
theorem do_mmap_last_segment_marker_witness :
    ∃ segs : List page,
      do_mmap 3 (env_ok 5000) [] 65536 5000 true 3 0 = some (65536, [] ++ segs) ∧
      segs ≠ [] ∧
      ∀ i p, segs[i]? = some p →
        (i + 1 = segs.length → 0 < page_zero_bytes p) ∧
        (i + 1 < segs.length → page_zero_bytes p = 0) :=
  do_mmap_last_segment_marker 3 (env_ok 5000) [] 65536 5000 true 3 0 4 rfl
    (fun _ _ => rfl) (by rw [file_length_env_ok, PGSIZE_eq]; decide)

/-- Instance of C9: the registration of segment 1 fails; `do_mmap` returns
`NULL` and segment 0 alone is in the table. -/
theorem do_mmap_result_witness :
    ∃ ret spt1,
      do_mmap 4 (env_fail_at_1 8192) [] 65536 8192 true 3 0 = some (ret, spt1) ∧
      ret = NULL ∧ spt1 = [seg_page 65536 true 4 0 8192 0] := by
  obtain ⟨ret, spt1, hrun, _, hnull, _, hfail⟩ :=
    do_mmap_result 4 (env_fail_at_1 8192) [] 65536 8192 true 3 0 (by decide)
  refine ⟨ret, spt1, hrun, hnull ?_, ?_⟩
  · rintro ⟨h, _, hall⟩
    have h1 := hall 1 (by rw [file_length_env_fail_at_1, PGSIZE_eq]; decide)
    exact absurd h1 (by decide)
  · have h2 := hfail 4 1 rfl (by rw [file_length_env_fail_at_1, PGSIZE_eq]; decide)
      (fun i hi => by
        have hi0 : i = 0 := by omega
        subst hi0
        rfl)
      rfl
    rw [file_length_env_fail_at_1] at h2
    exact h2

/-- C10 fails on the code: mapping a file of `2 * PGSIZE` bytes with length
`2 * PGSIZE` registers three descriptors, not two, and the third is a page of
pure zero-fill. -/
theorem do_mmap_two_pages_registers_three :
    (do_mmap 4 (env_ok (2 * PGSIZE)) [] 65536 (2 * PGSIZE) true 3 0).map
        (fun r => r.2.map (fun p => (p.va, page_read_bytes p, page_zero_bytes p)))
      = some [(65536, PGSIZE, 0), (69632, PGSIZE, 0), (73728, 0, PGSIZE)] ∧
    ¬ ∃ ret spt1,
      do_mmap 4 (env_ok (2 * PGSIZE)) [] 65536 (2 * PGSIZE) true 3 0
        = some (ret, spt1) ∧ spt1.length = 2 := by
  have hrun := do_mmap_all_ok 4 (env_ok (2 * PGSIZE)) [] 65536 (2 * PGSIZE) true 3 0
    4 rfl (fun _ _ => rfl) (by rw [file_length_env_ok, PGSIZE_eq]; decide)
  rw [file_length_env_ok] at hrun
  constructor
  · rw [hrun]
    rfl
  · rintro ⟨ret, spt1, hmap, hlen⟩
    rw [hrun] at hmap
    simp only [Option.some.injEq, Prod.mk.injEq] at hmap
    rw [← hmap.2] at hlen
    simp [seg_pages, PGSIZE_eq] at hlen

/-- Instance of C10 as the code has it: two full pages of file content are
followed by a third descriptor of pure zero-fill. -/
theorem do_mmap_page_multiple_witness :
    ∃ segs : List page,
      do_mmap 4 (env_ok 8192) [] 65536 8192 true 3 0 = some (65536, [] ++ segs) ∧
      segs.length = 2 + 1 ∧
      ∀ i p, segs[i]? = some p →
        (i < 2 → page_read_bytes p = PGSIZE ∧ page_zero_bytes p = 0) ∧
        (i = 2 → page_read_bytes p = 0 ∧ page_zero_bytes p = PGSIZE) :=
  do_mmap_page_multiple 4 (env_ok 8192) [] 65536 8192 true 3 0 4 2 rfl
    (by rw [file_length_env_ok]; decide) (fun _ _ => rfl) (by decide)

/-- Instance of C4: two pages are mapped at 65536, the first of them is faulted
in, and a second mapping is placed at 73728, right after the first; unmapping
65536 leaves exactly the descriptor of the second mapping. -/
theorem do_munmap_removes_mapping_witness :
    do_mmap 3 (env_ok 8192) [] 65536 5000 true 3 0
      = some (65536, [seg_page 65536 true 4 0 5000 0, seg_page 65536 true 4 0 5000 1]) ∧
    (∃ q, file_backed_initializer (seg_page 65536 true 4 0 5000 0) .VM_FILE 0
      = some q ∧ q.st = pg_a0.st) ∧
    pg_a1 = seg_page 65536 true 4 0 5000 1 ∧
    ∃ w1, do_munmap 3 0 w_one_dirty spt_live 65536 = some (w1, [pg_b0]) := by
  have hrun := do_mmap_all_ok 3 (env_ok 8192) [] 65536 5000 true 3 0 4 rfl
    (fun _ _ => rfl) (by rw [file_length_env_ok, PGSIZE_eq]; decide)
  rw [file_length_env_ok] at hrun
  have hrun2 : do_mmap 3 (env_ok 8192) [] 65536 5000 true 3 0
      = some (65536,
          [seg_page 65536 true 4 0 5000 0, seg_page 65536 true 4 0 5000 1]) := by
    rw [hrun]; rfl
  refine ⟨hrun2, ⟨_, rfl, by decide⟩, by decide, ?_⟩
  have h := do_munmap_removes_mapping 3 3 (env_ok 8192) [] 65536 5000 true 3 0 4
    65536 _ 0 w_one_dirty spt_live rfl
    (by rw [file_length_env_ok, PGSIZE_eq]; decide) hrun2 (by decide)
    (by
      rw [file_length_env_ok]
      intro i hi
      have hi2 : i = 0 ∨ i = 1 := by
        have : min 5000 8192 / PGSIZE = 1 := by decide
        omega
      rcases hi2 with rfl | rfl
      · exact ⟨seg_page 65536 true 4 0 5000 0, pg_a0, rfl, rfl, rfl,
          Or.inr ⟨_, .VM_FILE, 0, rfl, by decide⟩⟩
      · exact ⟨seg_page 65536 true 4 0 5000 1, pg_a1, rfl, rfl, rfl,
          Or.inl (by decide)⟩)
    (by rw [file_length_env_ok, PGSIZE_eq]; decide)
  rw [file_length_env_ok] at h
  obtain ⟨w1, hw1⟩ := h
  exact ⟨w1, by rw [hw1]; rfl⟩

end VmFile
